/- Verification of the unreson undo/redo state container against its design
   specification. The definitions below are a shallow embedding of the
   repository's JavaScript sources (src/src/unreson.mjs and
   src/dist/unreson.js); theorems settle the specification's claims about
   them. -/
import Mathlib

namespace Unreson

/- ## The tree of JSON-safe values

A `Tree` is the JSON-shaped value tracked by a `StateObject`: a scalar
(number, boolean, string, null), an ordered sequence, or a string-keyed
mapping.  Sequences and mappings are given by the mutually inductive
`TreeList` and `FieldList` so that all functions below are structurally
recursive. -/

mutual

inductive Tree where
  | null : Tree
  | boolv (b : Bool) : Tree
  | numv (n : Int) : Tree
  | strv (s : String) : Tree
  | arr (elems : TreeList) : Tree
  | obj (fields : FieldList) : Tree
  deriving DecidableEq

inductive TreeList where
  | nil : TreeList
  | cons (hd : Tree) (tl : TreeList) : TreeList
  deriving DecidableEq

inductive FieldList where
  | nil : FieldList
  | cons (key : String) (val : Tree) (tl : FieldList) : FieldList
  deriving DecidableEq

end

/-- `value instanceof Object` for a JSON-safe value: true exactly on
sequences and mappings. -/
def Tree.isObjectLike : Tree → Bool
  | .arr _ => true
  | .obj _ => true
  | _ => false

/-- JavaScript truthiness of a JSON-safe value: `null`, `false`, `0` and the
empty string are falsy; every other value (including `[]` and an empty
mapping) is truthy. -/
def Tree.truthy : Tree → Bool
  | .null => false
  | .boolv b => b
  | .numv n => decide (n ≠ 0)
  | .strv s => decide (s ≠ "")
  | .arr _ => true
  | .obj _ => true

/-- The fields a `for (let k in object)` loop visits on a primitive string:
index keys `"0" .. "len-1"` in order, each holding the one-character string
at that index.  Used by `cloneObject` on a truthy string input. -/
def strFields : Nat → List Char → FieldList
  | _, [] => .nil
  | i, c :: cs => .cons (toString i) (.strv (String.singleton c)) (strFields (i + 1) cs)

/- ## cloneObject (src/src/unreson.mjs, dist/unreson.js)

```
function cloneObject(object) {
  if (!object) return object;
  let cloned = object instanceof Array ? [] : {};
  for (let k in object) {
    let v = object[k];
    cloned[k] = v instanceof Object ? cloneObject(v) : v;
  }
  return cloned;
}
```

Per constructor of `Tree`: a falsy input (`null`, `false`, `0`, `""`) is
returned as-is by the first guard.  A truthy input that is not an `Array`
starts from `{}`; the `for..in` loop visits no keys on a boolean or number
primitive (result `{}`), and visits the index keys on a string primitive.
Sequences and mappings are copied entry by entry, recursing exactly on
`instanceof Object` values. -/

mutual

def cloneObject : Tree → Tree
  | .null => .null
  | .boolv b => if b then .obj .nil else .boolv false
  | .numv n => if n = 0 then .numv 0 else .obj .nil
  | .strv s => if s = "" then .strv "" else .obj (strFields 0 s.toList)
  | .arr l => .arr (cloneElems l)
  | .obj l => .obj (cloneFields l)

def cloneElems : TreeList → TreeList
  | .nil => .nil
  | .cons v tl => .cons (if v.isObjectLike then cloneObject v else v) (cloneElems tl)

def cloneFields : FieldList → FieldList
  | .nil => .nil
  | .cons k v tl => .cons k (if v.isObjectLike then cloneObject v else v) (cloneFields tl)

end

/- ## Raw storage writes

`Reflect.set(obj, prop, value)` and `Reflect.deleteProperty(obj, prop)` on
the underlying (unproxied) mapping storage. -/

/-- Overwrite the value stored at key `k`, or append the binding when the
key is absent. -/
def setField : FieldList → String → Tree → FieldList
  | .nil, k, v => .cons k v .nil
  | .cons k' v' tl, k, v =>
      if k' = k then .cons k v tl else .cons k' v' (setField tl k v)

/-- `Reflect.set(obj, prop, value)` at the root of a mapping tree. -/
def Tree.rawSetKey (t : Tree) (k : String) (v : Tree) : Tree :=
  match t with
  | .obj l => .obj (setField l k v)
  | t => t

/-- Modelled from the spec: the diff/patch provider contract of section 4.2.
The concrete provider consumed by the sources (the `yajsondiff` package's
`diff`, `applyChanges` and `revertChanges` imports) is external to this
repository, so the core is embedded parametrically over any provider with
this signature: `diff` returns a change record or null, and the two apply
operations return the new tree or null on failure. -/
structure DiffProvider (C : Type) where
  diff : Tree → Tree → Option C
  applyChanges : Tree → C → Option Tree
  revertChanges : Tree → C → Option Tree

/- ## The state container -/

/-- An event published through the `EventEmitter` base class: `change`,
`undo` and `redo` notifications, each carrying the change record. -/
inductive Event (C : Type) where
  | change (c : C) : Event C
  | undo (c : C) : Event C
  | redo (c : C) : Event C
  deriving DecidableEq

/-- The `StateObject` instance state: the canonical tree `_state` (the data
behind the proxy returned by the `state` getter), the change history and
cursor, the queued-batch fields, and the log of emitted events.  The proxy
wrapper produced by `setProxy` is data-transparent (its `get` trap wraps
containers but returns the same data); its `set` and `deleteProperty` traps
are embedded below as `setTrap` and `deleteTrap`. -/
structure StateObject (C : Type) where
  _state : Tree
  changes : List C
  changePosition : Int
  _queuedState : Option Tree
  _queueEmit : Bool
  events : List (Event C)
  deriving DecidableEq

/-- The proxy target chosen by `setProxy`:
`new Proxy(proxyObject ? proxyObject : {}, handler)` wraps the passed value
when it is truthy and a fresh empty mapping when it is falsy. -/
def setProxyTarget (t : Tree) : Tree :=
  if t.truthy then t else .obj .nil

/-- The `state` setter: `this._state = setProxy(this, cloneObject(v))`.
Only `_state` is assigned — history, cursor, batch fields and emitted
events are untouched; the stored tree is the clone of `v` when that clone
is truthy, and the empty mapping `setProxy` falls back to when it is
falsy. -/
def StateObject.setStateProp {C : Type} (s : StateObject C) (v : Tree) : StateObject C :=
  { s with _state := setProxyTarget (cloneObject v) }

/-- `new StateObject(obj)`: runs the `state` setter on `obj`, then sets
`changes = []` and `changePosition = 0`. -/
def StateObject.make (C : Type) (obj : Tree) : StateObject C :=
  { _state := setProxyTarget (cloneObject obj)
    changes := []
    changePosition := 0
    _queuedState := none
    _queueEmit := false
    events := [] }

/-- `this.changes.splice(start, this.changes.length, item)` with the
ECMAScript clamping rules: a negative `start` counts from the end, the
delete count is clamped to the elements after the actual start, and `item`
is inserted there.  With delete count `changes.length` this removes every
element at index `>= actualStart`. -/
def spliceAll {C : Type} (l : List C) (start : Int) (item : C) : List C :=
  let len : Int := l.length
  let actualStart : Int := if start < 0 then max (len + start) 0 else min start len
  let deleteCount : Int := min (max len 0) (len - actualStart)
  l.take actualStart.toNat ++ [item] ++ l.drop (actualStart + deleteCount).toNat

/-- `add(change)`:
`this.changes.splice(this.changePosition++, this.changes.length, change)`. -/
def StateObject.add {C : Type} (s : StateObject C) (c : C) : StateObject C :=
  { s with
    changes := spliceAll s.changes s.changePosition c
    changePosition := s.changePosition + 1 }

/-- `array[i]` for an integer index: `undefined` (none) when out of range. -/
def jsGetElem {C : Type} (l : List C) (i : Int) : Option C :=
  if i < 0 then none else l[i.toNat]?

/-- `undo()` from src/unreson.mjs / dist/unreson.js:
```
if (this.changePosition <= 0 || this.changePosition > this.changes.length) return;
let change = this.changes[--this.changePosition];
let changedState = revertChanges(this._state, change);
if (changedState == null) return;
this.state = changedState;
this.emit('undo', change);
```
Note the position is decremented by `--this.changePosition` before the
backward application is attempted, and is not restored when
`revertChanges` returns null.  On success the `state` setter stores
`setProxy(this, cloneObject(changedState))`, with the falsy-target
fallback of `setProxy`. -/
def StateObject.undo {C : Type} (P : DiffProvider C) (s : StateObject C) : StateObject C :=
  if s.changePosition ≤ 0 ∨ s.changePosition > (s.changes.length : Int) then s
  else
    let newPos := s.changePosition - 1
    match jsGetElem s.changes newPos with
    | none => { s with changePosition := newPos }
    | some change =>
      match P.revertChanges s._state change with
      | none => { s with changePosition := newPos }
      | some changedState =>
        { s with
          changePosition := newPos
          _state := setProxyTarget (cloneObject changedState)
          events := s.events ++ [.undo change] }

/-- `redo()` from src/unreson.mjs / dist/unreson.js:
```
if (this.changePosition >= this.changes.length) return;
let change = this.changes[this.changePosition++];
let changedState = applyChanges(this._state, change);
if (changedState == null) return;
this.state = changedState;
this.emit('redo', change);
```
Note the position is incremented by `this.changePosition++` before the
forward application is attempted, and is not restored when `applyChanges`
returns null.  On success the `state` setter stores
`setProxy(this, cloneObject(changedState))`, with the falsy-target
fallback of `setProxy`. -/
def StateObject.redo {C : Type} (P : DiffProvider C) (s : StateObject C) : StateObject C :=
  if s.changePosition ≥ (s.changes.length : Int) then s
  else
    let newPos := s.changePosition + 1
    match jsGetElem s.changes s.changePosition with
    | none => { s with changePosition := newPos }
    | some change =>
      match P.applyChanges s._state change with
      | none => { s with changePosition := newPos }
      | some changedState =>
        { s with
          changePosition := newPos
          _state := setProxyTarget (cloneObject changedState)
          events := s.events ++ [.redo change] }

/-- `undoable()`: `if (this.changePosition == 0) return false; return true`. -/
def StateObject.undoable {C : Type} (s : StateObject C) : Bool :=
  if s.changePosition = 0 then false else true

/-- `redoable()`: `if (this.changePosition >= this.changes.length) return
false; return true`. -/
def StateObject.redoable {C : Type} (s : StateObject C) : Bool :=
  if s.changePosition ≥ (s.changes.length : Int) then false else true

/-- `queue(conf = {})` from dist/unreson.js: stores the merged configuration
(`emit` defaults to false) and caches `cloneObject(this._state)` as the
queued baseline.  There is no check for an already-active queue; a second
call simply overwrites `_queueConfig` and `_queuedState`. -/
def StateObject.queue {C : Type} (s : StateObject C) (emit : Bool) : StateObject C :=
  { s with
    _queueEmit := emit
    _queuedState := some (cloneObject s._state) }

/-- `unqueue()` from dist/unreson.js: throws when no queued state exists;
otherwise diffs the queued baseline against the current state, adds and
emits the change when the diff is non-null, and clears `_queuedState`. -/
def StateObject.unqueue {C : Type} (P : DiffProvider C) (s : StateObject C) :
    Except String (StateObject C) :=
  match s._queuedState with
  | none => .error ("unqueue called without a prior call to queue")
  | some queued =>
    match P.diff queued s._state with
    | none => .ok { s with _queuedState := none }
    | some change =>
      let s' := s.add change
      .ok { s' with
            events := s'.events ++ [.change change]
            _queuedState := none }

/-- The proxy `set` trap from dist/unreson.js, with `mutate` standing for
the raw `Reflect.set(obj, prop, value)` on the underlying storage as a
function of the canonical tree (the trap fires for a write at any depth and
always diffs the whole tree):
```
if (instance._queuedState && !instance._queueConfig.emit) {
  return Reflect.set(obj, prop, value);
}
let lastState = cloneObject(instance._state);
let result = Reflect.set(obj, prop, value);
let change = diff(lastState, instance._state);
if (change != null) {
  if (!instance._queuedState) instance.add(change);
  instance.emit('change', change);
}
```
-/
def StateObject.setTrap {C : Type} (P : DiffProvider C) (s : StateObject C)
    (mutate : Tree → Tree) : StateObject C :=
  if s._queuedState.isSome && !s._queueEmit then { s with _state := mutate s._state }
  else
    let lastState := cloneObject s._state
    let newState := mutate s._state
    match P.diff lastState newState with
    | none => { s with _state := newState }
    | some change =>
      if s._queuedState.isSome then
        { s with _state := newState, events := s.events ++ [.change change] }
      else
        let s' := StateObject.add { s with _state := newState } change
        { s' with events := s'.events ++ [.change change] }

/-- Modelled from the spec: the frozen flag of the container (declared as
`_frozen` in dist/unreson.d.ts), defaulting to false at construction. -/
structure FrozenState (C : Type) where
  inner : StateObject C
  _frozen : Bool
  deriving DecidableEq

/-- Modelled from the spec: `freeze()` sets the frozen flag
(section 4.5). -/
def FrozenState.freeze {C : Type} (s : FrozenState C) : FrozenState C :=
  { s with _frozen := true }

/-- Modelled from the spec: `thaw()` clears the frozen flag
(section 4.5). -/
def FrozenState.thaw {C : Type} (s : FrozenState C) : FrozenState C :=
  { s with _frozen := false }

/-- Modelled from the spec: the `frozen` getter. -/
def FrozenState.frozen {C : Type} (s : FrozenState C) : Bool :=
  s._frozen

/-- Modelled from the spec: while frozen, a write is silently ignored
(section 4.3 step 1); otherwise the write trap runs as in the source. -/
def FrozenState.setTrapF {C : Type} (P : DiffProvider C) (s : FrozenState C)
    (mutate : Tree → Tree) : FrozenState C :=
  if s._frozen then s else { s with inner := s.inner.setTrap P mutate }

/-- Modelled from the spec: while frozen, `undo()` is a no-op
(section 4.4); otherwise it runs as in the source. -/
def FrozenState.undoF {C : Type} (P : DiffProvider C) (s : FrozenState C) : FrozenState C :=
  if s._frozen then s else { s with inner := s.inner.undo P }

/-- Modelled from the spec: while frozen, `redo()` is a no-op
(section 4.4); otherwise it runs as in the source. -/
def FrozenState.redoF {C : Type} (P : DiffProvider C) (s : FrozenState C) : FrozenState C :=
  if s._frozen then s else { s with inner := s.inner.redo P }

/- ## A concrete provider for test scenarios

A change record stores the (before, after) snapshot pair; forward
application replays it and backward application exactly inverts it, each
failing (null) on an incompatible base state. -/

/-- A concrete diff/patch provider satisfying the section 4.2 contract,
used to run the embedded operations on explicit inputs. -/
def pairProvider : DiffProvider (Tree × Tree) :=
  { diff := fun before after => if before = after then none else some (before, after)
    applyChanges := fun t c => if t = c.1 then some c.2 else none
    revertChanges := fun t c => if t = c.2 then some c.1 else none }

/- ## Lemmas about cloneObject -/

mutual

theorem cloneObject_objLike : ∀ t : Tree, t.isObjectLike = true → cloneObject t = t := by
  intro t h
  match t with
  | .arr l => simp [cloneObject, cloneElems_id l]
  | .obj l => simp [cloneObject, cloneFields_id l]

theorem cloneElems_id : ∀ l : TreeList, cloneElems l = l := by
  intro l
  match l with
  | .nil => rfl
  | .cons v tl =>
    simp [cloneElems, cloneElems_id tl]
    intro h
    exact cloneObject_objLike v h

theorem cloneFields_id : ∀ l : FieldList, cloneFields l = l := by
  intro l
  match l with
  | .nil => rfl
  | .cons k v tl =>
    simp [cloneFields, cloneFields_id tl]
    intro h
    exact cloneObject_objLike v h

end

/-- `cloneObject` is the identity on every container and on every falsy
scalar. -/
theorem cloneObject_fix (t : Tree) (h : t.isObjectLike = true ∨ t.truthy = false) :
    cloneObject t = t := by
  rcases h with h | h
  · exact cloneObject_objLike t h
  · match t with
    | .null => rfl
    | .boolv b =>
      simp [Tree.truthy] at h
      simp [cloneObject, h]
    | .numv n =>
      simp [Tree.truthy] at h
      simp [cloneObject, h]
    | .strv s =>
      simp [Tree.truthy] at h
      simp [cloneObject, h]
    | .arr l => exact cloneObject_objLike _ rfl
    | .obj l => exact cloneObject_objLike _ rfl

/-- A container is truthy and a `cloneObject` fixed point, so storing it
through the `state` setter (clone plus proxy-target fallback) leaves it
unchanged. -/
theorem setProxyTarget_clone_fix (t : Tree) (h : t.isObjectLike = true) :
    setProxyTarget (cloneObject t) = t := by
  rw [cloneObject_objLike t h]
  have ht : t.truthy = true := by
    cases t <;> simp [Tree.truthy, Tree.isObjectLike] at h ⊢
  simp [setProxyTarget, ht]

/- ## Lemmas about the history splice -/

/-- With the cursor inside `[0, length]`, the splice performed by `add`
keeps exactly the records below the cursor and puts the new record at the
cursor index. -/
theorem spliceAll_eq_take {C : Type} (l : List C) (p : Int) (c : C)
    (h0 : 0 ≤ p) (hle : p ≤ (l.length : Int)) :
    spliceAll l p c = l.take p.toNat ++ [c] := by
  unfold spliceAll
  have hnlt : ¬ p < 0 := not_lt.mpr h0
  have hmin : min p (l.length : Int) = p := min_eq_left hle
  have hmax : max ((l.length : Int)) 0 = (l.length : Int) := max_eq_left (by positivity)
  have hdc : min ((l.length : Int)) ((l.length : Int) - p) = (l.length : Int) - p := by
    apply min_eq_right; omega
  simp only [hnlt, if_false, hmin, hmax, hdc]
  have : (p + ((l.length : Int) - p)).toNat = l.length := by omega
  simp [this]

/-- `add` with the cursor inside `[0, length]`: truncate at the cursor,
append the record, advance the cursor. -/
theorem add_spec {C : Type} (s : StateObject C) (c : C)
    (h0 : 0 ≤ s.changePosition) (hle : s.changePosition ≤ (s.changes.length : Int)) :
    (s.add c).changes = s.changes.take s.changePosition.toNat ++ [c] ∧
    (s.add c).changePosition = s.changePosition + 1 := by
  constructor
  · simp [StateObject.add, spliceAll_eq_take s.changes s.changePosition c h0 hle]
  · rfl

/-- `add` preserves the history cursor invariant. -/
theorem add_inv {C : Type} (s : StateObject C) (c : C)
    (h0 : 0 ≤ s.changePosition) (hle : s.changePosition ≤ (s.changes.length : Int)) :
    0 ≤ (s.add c).changePosition ∧
    (s.add c).changePosition = ((s.add c).changes.length : Int) := by
  obtain ⟨hc, hp⟩ := add_spec s c h0 hle
  rw [hc, hp]
  have htake : (s.changes.take s.changePosition.toNat).length = s.changePosition.toNat := by
    rw [List.length_take]
    omega
  constructor
  · omega
  · simp [htake]
    omega

/- ## C9: cloneObject -/

/-- C9 counterexample: `cloneObject` applied to the scalar `1` does not
return a tree of the same shape and scalar value — the JavaScript source's
`object instanceof Array ? [] : {}` start value turns every truthy
non-container input into a mapping, so `cloneObject(1)` is `{}`. -/
theorem c9_counterexample :
    cloneObject (Tree.numv 1) = Tree.obj .nil ∧ Tree.numv 1 ≠ Tree.obj .nil := by
  constructor
  · rfl
  · decide

/-- C9 amended: for every Tree that is a container (sequence or mapping) or
a falsy scalar (`null`, `false`, `0`, `""`), `cloneObject` returns a tree
with the same shape and the same scalar values, recursing through nested
containers, and it terminates on every finite acyclic tree (it is a total
function); truthy scalar inputs, however, are not copied by value. -/
theorem c9_clone_preserves (t : Tree) (h : t.isObjectLike = true ∨ t.truthy = false) :
    cloneObject t = t :=
  cloneObject_fix t h

/-- C9 witness: the amended theorem applied to the concrete mapping
`{a: 1, b: [2, null]}`. -/
theorem c9_witness :
    cloneObject (Tree.obj (.cons "a" (.numv 1)
      (.cons "b" (.arr (.cons (.numv 2) (.cons .null .nil))) .nil))) =
    Tree.obj (.cons "a" (.numv 1)
      (.cons "b" (.arr (.cons (.numv 2) (.cons .null .nil))) .nil)) :=
  c9_clone_preserves _ (Or.inl rfl)

/- ## C10: the state setter bypasses history -/

/-- C10: the public `state` assignment (also performed by the constructor)
replaces the canonical tree with the proxied deep clone of the value —
`setProxy(this, cloneObject(v))`, i.e. the clone of `v` behind the proxy,
with the proxy's fallback to an empty mapping when that clone is falsy —
while leaving the changes array and the change position unchanged,
committing no change record and emitting no notification; the constructor
additionally resets the history to empty at position 0 with no events. -/
theorem c10_setter_bypasses_history {C : Type} (s : StateObject C) (v : Tree) :
    ((s.setStateProp v)._state = setProxyTarget (cloneObject v) ∧
     (s.setStateProp v).changes = s.changes ∧
     (s.setStateProp v).changePosition = s.changePosition ∧
     (s.setStateProp v).events = s.events) ∧
    ((StateObject.make C v)._state = setProxyTarget (cloneObject v) ∧
     (StateObject.make C v).changes = [] ∧
     (StateObject.make C v).changePosition = 0 ∧
     (StateObject.make C v).events = []) := by
  exact ⟨⟨rfl, rfl, rfl, rfl⟩, ⟨rfl, rfl, rfl, rfl⟩⟩

/- ## C1: undo when the backward application fails -/

/-- C1 counterexample: a container at position 1 whose single change record
cannot be reverted (the provider returns null because the record's after
snapshot does not match the current tree).  `undo()` runs
`this.changes[--this.changePosition]` before attempting the backward
application and never restores the cursor, so afterwards the position is 0,
not 1 as the claim states. -/
theorem c1_counterexample :
    pairProvider.revertChanges
      (StateObject.mk (Tree.obj .nil) [(Tree.numv 1, Tree.numv 2)] 1 none false []
        : StateObject (Tree × Tree))._state (Tree.numv 1, Tree.numv 2) = none ∧
    (StateObject.undo pairProvider
      (StateObject.mk (Tree.obj .nil) [(Tree.numv 1, Tree.numv 2)] 1 none false
        [])).changePosition = 0 ∧
    (0 : Int) ≠ 1 := by decide

/-- C1 amended: when `undo()` is called at position `p > 0` and the
backward application of `changes[p-1]` returns null, the canonical tree,
the changes list and the emitted events are left unchanged (no undo
notification), but the position is decremented to `p - 1` rather than
remaining `p`. -/
theorem c1_undo_failure {C : Type} (P : DiffProvider C) (s : StateObject C) (c : C)
    (h0 : 0 < s.changePosition) (hle : s.changePosition ≤ (s.changes.length : Int))
    (hc : jsGetElem s.changes (s.changePosition - 1) = some c)
    (hfail : P.revertChanges s._state c = none) :
    s.undo P = { s with changePosition := s.changePosition - 1 } := by
  have hguard : ¬ (s.changePosition ≤ 0 ∨ s.changePosition > (s.changes.length : Int)) := by
    omega
  simp only [StateObject.undo, hguard, if_false, hc, hfail]

/-- C1 witness: the amended theorem applied to the concrete container of
the counterexample. -/
theorem c1_witness :
    StateObject.undo pairProvider
      (StateObject.mk (Tree.obj .nil) [(Tree.numv 1, Tree.numv 2)] 1 none false []) =
    StateObject.mk (Tree.obj .nil) [(Tree.numv 1, Tree.numv 2)] 0 none false [] :=
  c1_undo_failure pairProvider
    (StateObject.mk (Tree.obj .nil) [(Tree.numv 1, Tree.numv 2)] 1 none false [])
    (Tree.numv 1, Tree.numv 2) (by decide) (by decide) (by decide) (by decide)

/- ## C3: redo when the forward application fails -/

/-- C3 counterexample: a container at position 0 whose single change record
cannot be applied forward (the provider returns null because the record's
before snapshot does not match the current tree).  `redo()` runs
`this.changes[this.changePosition++]` before attempting the forward
application and never restores the cursor, so afterwards the position is 1,
not 0 as the claim states. -/
theorem c3_counterexample :
    pairProvider.applyChanges
      (StateObject.mk (Tree.obj .nil) [(Tree.numv 1, Tree.numv 2)] 0 none false []
        : StateObject (Tree × Tree))._state (Tree.numv 1, Tree.numv 2) = none ∧
    (StateObject.redo pairProvider
      (StateObject.mk (Tree.obj .nil) [(Tree.numv 1, Tree.numv 2)] 0 none false
        [])).changePosition = 1 ∧
    (1 : Int) ≠ 0 := by decide

/-- C3 amended: when `redo()` is called at position `p < changes.length`
and the forward application of `changes[p]` returns null, the canonical
tree, the changes list and the emitted events are left unchanged (no redo
notification), but the position is incremented to `p + 1` rather than
remaining `p`. -/
theorem c3_redo_failure {C : Type} (P : DiffProvider C) (s : StateObject C) (c : C)
    (hlt : s.changePosition < (s.changes.length : Int))
    (hc : jsGetElem s.changes s.changePosition = some c)
    (hfail : P.applyChanges s._state c = none) :
    s.redo P = { s with changePosition := s.changePosition + 1 } := by
  have hguard : ¬ s.changePosition ≥ (s.changes.length : Int) := by omega
  simp only [StateObject.redo, hguard, if_false, hc, hfail]

/-- C3 witness: the amended theorem applied to the concrete container of
the counterexample. -/
theorem c3_witness :
    StateObject.redo pairProvider
      (StateObject.mk (Tree.obj .nil) [(Tree.numv 1, Tree.numv 2)] 0 none false []) =
    StateObject.mk (Tree.obj .nil) [(Tree.numv 1, Tree.numv 2)] 1 none false [] :=
  c3_redo_failure pairProvider
    (StateObject.mk (Tree.obj .nil) [(Tree.numv 1, Tree.numv 2)] 0 none false [])
    (Tree.numv 1, Tree.numv 2) (by decide) (by decide) (by decide)

/- ## C4: deletions are not captured as change records -/

/-- C6 counterexample: with a batch already active (and its baseline
`{a: 1}` cached), a raw batched write updates `a` to 2 and a second call to
`queue()` succeeds — it returns normally (the source's `queue` body has no
failure path) and replaces the batch context with a fresh baseline
`{a: 2}`, contradicting the claim that the call fails with an error. -/
theorem c6_counterexample :
    ((StateObject.make (Tree × Tree) (Tree.obj (.cons "a" (.numv 1) .nil))).queue
        false)._queuedState = some (Tree.obj (.cons "a" (.numv 1) .nil)) ∧
    ((((StateObject.make (Tree × Tree) (Tree.obj (.cons "a" (.numv 1) .nil))).queue
        false).setTrap pairProvider (fun t => t.rawSetKey "a" (.numv 2))).queue
        false)._queuedState = some (Tree.obj (.cons "a" (.numv 2) .nil)) ∧
    some (Tree.obj (.cons "a" (.numv 2) .nil)) ≠
      some (Tree.obj (.cons "a" (.numv 1) .nil)) := by decide

/-- C6 amended: calling `queue()` while a batch context is already active
does not fail; it silently starts a new batch, overwriting the stored
configuration and replacing the cached baseline with a clone of the current
canonical tree (the previous batch context is discarded). -/
theorem c6_queue_overwrites {C : Type} (s : StateObject C) (emit : Bool)
    (_h : s._queuedState.isSome = true) :
    s.queue emit =
      { s with _queuedState := some (cloneObject s._state), _queueEmit := emit } := by
  rfl

/-- C6 witness: the amended theorem applied to a batch-active container
holding `{a: 2}` with baseline `{a: 1}`. -/
theorem c6_witness :
    StateObject.queue
      (StateObject.mk (Tree.obj (.cons "a" (.numv 2) .nil)) []
        0 (some (Tree.obj (.cons "a" (.numv 1) .nil))) false []
        : StateObject (Tree × Tree)) true =
    StateObject.mk (Tree.obj (.cons "a" (.numv 2) .nil)) []
      0 (some (cloneObject (Tree.obj (.cons "a" (.numv 2) .nil)))) true [] :=
  c6_queue_overwrites
    (StateObject.mk (Tree.obj (.cons "a" (.numv 2) .nil)) []
      0 (some (Tree.obj (.cons "a" (.numv 1) .nil))) false []) true (by decide)

/- ## C2: add truncates the redo branch -/

/-- The C2 scenario start: a fresh container over `{a: 0}`. -/
def c2S0 : StateObject (Tree × Tree) :=
  StateObject.make (Tree × Tree) (Tree.obj (.cons "a" (.numv 0) .nil))

/-- A proxied write `a := n` of the C2 scenario. -/
def c2Write (n : Int) (s : StateObject (Tree × Tree)) : StateObject (Tree × Tree) :=
  s.setTrap pairProvider (fun t => t.rawSetKey "a" (.numv n))

/-- The C2 scenario `write; write; undo; write`. -/
def c2Final : StateObject (Tree × Tree) :=
  c2Write 3 ((c2Write 2 (c2Write 1 c2S0)).undo pairProvider)

/-- C2: committing a record through `add` removes every record at index
`>= changePosition`, appends the record at that index, and increments the
position; consequently, after `write; write; undo; write` on a fresh
container, `redoable()` is false and `changes.length` is 2. -/
theorem c2_add_truncates {C : Type} (s : StateObject C) (c : C)
    (h0 : 0 ≤ s.changePosition) (hle : s.changePosition ≤ (s.changes.length : Int)) :
    ((s.add c).changes = s.changes.take s.changePosition.toNat ++ [c] ∧
     (s.add c).changePosition = s.changePosition + 1) ∧
    (c2Final.redoable = false ∧ c2Final.changes.length = 2) := by
  refine ⟨add_spec s c h0 hle, ?_, ?_⟩ <;> decide

/-- C2 witness: the general part applied to a container with two records
and cursor 1, together with the concrete scenario facts. -/
theorem c2_witness :
    (((StateObject.mk Tree.null
        [(Tree.numv 1, Tree.numv 2), (Tree.numv 3, Tree.numv 4)] 1 none false []
        : StateObject (Tree × Tree)).add (Tree.numv 5, Tree.numv 6)).changes =
        [(Tree.numv 1, Tree.numv 2), (Tree.numv 3, Tree.numv 4)].take (Int.toNat 1) ++
          [(Tree.numv 5, Tree.numv 6)] ∧
     ((StateObject.mk Tree.null
        [(Tree.numv 1, Tree.numv 2), (Tree.numv 3, Tree.numv 4)] 1 none false []
        : StateObject (Tree × Tree)).add (Tree.numv 5, Tree.numv 6)).changePosition =
        1 + 1) ∧
    (c2Final.redoable = false ∧ c2Final.changes.length = 2) :=
  c2_add_truncates
    (StateObject.mk Tree.null
      [(Tree.numv 1, Tree.numv 2), (Tree.numv 3, Tree.numv 4)] 1 none false [])
    (Tree.numv 5, Tree.numv 6) (by decide) (by decide)

/- ## C7: freeze / thaw gating -/

/-- C7 (spec-modelled: the freeze/thaw bodies are not among the provided
sources, only their declarations in dist/unreson.d.ts): while a container
is frozen, every proxied write, `undo()` and `redo()` is a silent no-op —
the resulting container is the frozen container itself, so the canonical
tree, the changes list, the position and the emitted events are all
unchanged and no notification is published; freezing does not touch the
inner container, so reads are unaffected; and `thaw()` of the frozen
container restores exactly the original container, so all operations
afterwards behave exactly as before freezing. -/
theorem c7_frozen_noop {C : Type} (P : DiffProvider C) (s : FrozenState C)
    (mutate : Tree → Tree) (h : s._frozen = false) :
    (s.freeze.setTrapF P mutate = s.freeze ∧
     s.freeze.undoF P = s.freeze ∧
     s.freeze.redoF P = s.freeze ∧
     s.freeze.inner = s.inner) ∧
    s.freeze.thaw = s := by
  refine ⟨⟨?_, ?_, ?_, rfl⟩, ?_⟩
  · simp [FrozenState.setTrapF, FrozenState.freeze]
  · simp [FrozenState.undoF, FrozenState.freeze]
  · simp [FrozenState.redoF, FrozenState.freeze]
  · cases s
    simp at h
    simp [FrozenState.thaw, FrozenState.freeze, h]

/-- C7 witness: the theorem applied to an unfrozen container over `{a: 1}`
with one history record and the write `a := 2`. -/
theorem c7_witness :
    ((FrozenState.mk
        (StateObject.mk (Tree.obj (.cons "a" (.numv 1) .nil))
          [(Tree.obj .nil, Tree.obj (.cons "a" (.numv 1) .nil))] 1 none false []
          : StateObject (Tree × Tree)) false).freeze.setTrapF pairProvider
        (fun t => t.rawSetKey "a" (.numv 2)) =
      (FrozenState.mk
        (StateObject.mk (Tree.obj (.cons "a" (.numv 1) .nil))
          [(Tree.obj .nil, Tree.obj (.cons "a" (.numv 1) .nil))] 1 none false [])
        false).freeze ∧
     (FrozenState.mk
        (StateObject.mk (Tree.obj (.cons "a" (.numv 1) .nil))
          [(Tree.obj .nil, Tree.obj (.cons "a" (.numv 1) .nil))] 1 none false [])
        false).freeze.undoF pairProvider =
      (FrozenState.mk
        (StateObject.mk (Tree.obj (.cons "a" (.numv 1) .nil))
          [(Tree.obj .nil, Tree.obj (.cons "a" (.numv 1) .nil))] 1 none false [])
        false).freeze ∧
     (FrozenState.mk
        (StateObject.mk (Tree.obj (.cons "a" (.numv 1) .nil))
          [(Tree.obj .nil, Tree.obj (.cons "a" (.numv 1) .nil))] 1 none false [])
        false).freeze.redoF pairProvider =
      (FrozenState.mk
        (StateObject.mk (Tree.obj (.cons "a" (.numv 1) .nil))
          [(Tree.obj .nil, Tree.obj (.cons "a" (.numv 1) .nil))] 1 none false [])
        false).freeze ∧
     (FrozenState.mk
        (StateObject.mk (Tree.obj (.cons "a" (.numv 1) .nil))
          [(Tree.obj .nil, Tree.obj (.cons "a" (.numv 1) .nil))] 1 none false [])
        false).freeze.inner =
      (FrozenState.mk
        (StateObject.mk (Tree.obj (.cons "a" (.numv 1) .nil))
          [(Tree.obj .nil, Tree.obj (.cons "a" (.numv 1) .nil))] 1 none false [])
        false).inner) ∧
    (FrozenState.mk
        (StateObject.mk (Tree.obj (.cons "a" (.numv 1) .nil))
          [(Tree.obj .nil, Tree.obj (.cons "a" (.numv 1) .nil))] 1 none false [])
        false).freeze.thaw =
      FrozenState.mk
        (StateObject.mk (Tree.obj (.cons "a" (.numv 1) .nil))
          [(Tree.obj .nil, Tree.obj (.cons "a" (.numv 1) .nil))] 1 none false [])
        false :=
  c7_frozen_noop pairProvider
    (FrozenState.mk
      (StateObject.mk (Tree.obj (.cons "a" (.numv 1) .nil))
        [(Tree.obj .nil, Tree.obj (.cons "a" (.numv 1) .nil))] 1 none false [])
      false)
    (fun t => t.rawSetKey "a" (.numv 2)) rfl

/- ## C8: the history cursor invariant -/

/-- The containers reachable from construction by the public operations:
proxied writes (committing through `add`), `undo`, `redo`, `queue` and
`unqueue`. -/
inductive Reachable {C : Type} (P : DiffProvider C) : StateObject C → Prop where
  | make (obj : Tree) : Reachable P (StateObject.make C obj)
  | write {s : StateObject C} (mutate : Tree → Tree) :
      Reachable P s → Reachable P (s.setTrap P mutate)
  | undo {s : StateObject C} : Reachable P s → Reachable P (s.undo P)
  | redo {s : StateObject C} : Reachable P s → Reachable P (s.redo P)
  | queue {s : StateObject C} (emit : Bool) : Reachable P s → Reachable P (s.queue emit)
  | unqueue {s s' : StateObject C} :
      Reachable P s → s.unqueue P = .ok s' → Reachable P s'

/-- The set trap preserves the cursor invariant. -/
theorem setTrap_pres {C : Type} (P : DiffProvider C) (s : StateObject C) (mutate : Tree → Tree)
    (h0 : 0 ≤ s.changePosition) (hle : s.changePosition ≤ (s.changes.length : Int)) :
    0 ≤ (s.setTrap P mutate).changePosition ∧
    (s.setTrap P mutate).changePosition ≤ (((s.setTrap P mutate).changes.length : Int)) := by
  unfold StateObject.setTrap
  dsimp only
  repeat' split
  all_goals try exact ⟨h0, hle⟩
  all_goals
    obtain ⟨ha, hb⟩ := add_inv { s with _state := mutate s._state } _ h0 hle
    exact ⟨ha, le_of_eq hb⟩

/-- `undo` preserves the cursor invariant. -/
theorem undo_pres {C : Type} (P : DiffProvider C) (s : StateObject C)
    (h0 : 0 ≤ s.changePosition) (hle : s.changePosition ≤ (s.changes.length : Int)) :
    0 ≤ (s.undo P).changePosition ∧
    (s.undo P).changePosition ≤ (((s.undo P).changes.length : Int)) := by
  unfold StateObject.undo
  dsimp only
  repeat' split
  all_goals try exact ⟨h0, hle⟩
  all_goals refine ⟨?_, ?_⟩ <;> simp <;> omega

/-- `redo` preserves the cursor invariant. -/
theorem redo_pres {C : Type} (P : DiffProvider C) (s : StateObject C)
    (h0 : 0 ≤ s.changePosition) (hle : s.changePosition ≤ (s.changes.length : Int)) :
    0 ≤ (s.redo P).changePosition ∧
    (s.redo P).changePosition ≤ (((s.redo P).changes.length : Int)) := by
  unfold StateObject.redo
  dsimp only
  repeat' split
  all_goals try exact ⟨h0, hle⟩
  all_goals refine ⟨?_, ?_⟩ <;> simp <;> omega

/-- `unqueue` preserves the cursor invariant. -/
theorem unqueue_pres {C : Type} (P : DiffProvider C) (s s' : StateObject C)
    (heq : s.unqueue P = .ok s')
    (h0 : 0 ≤ s.changePosition) (hle : s.changePosition ≤ (s.changes.length : Int)) :
    0 ≤ s'.changePosition ∧ s'.changePosition ≤ ((s'.changes.length : Int)) := by
  cases hq : s._queuedState with
  | none =>
    simp only [StateObject.unqueue, hq] at heq
    exact Except.noConfusion heq
  | some queued =>
    cases hd : P.diff queued s._state with
    | none =>
      simp only [StateObject.unqueue, hq, hd, Except.ok.injEq] at heq
      subst heq
      exact ⟨h0, hle⟩
    | some change =>
      simp only [StateObject.unqueue, hq, hd, Except.ok.injEq] at heq
      subst heq
      obtain ⟨ha, hb⟩ := add_inv s change h0 hle
      exact ⟨ha, le_of_eq hb⟩

/-- C8: along every sequence of public operations from construction, the
history cursor stays within `[0, changes.length]`. -/
theorem c8_cursor_invariant {C : Type} (P : DiffProvider C) (s : StateObject C)
    (h : Reachable P s) :
    0 ≤ s.changePosition ∧ s.changePosition ≤ ((s.changes.length : Int)) := by
  induction h with
  | make obj => exact ⟨le_refl 0, by simp [StateObject.make]⟩
  | write mutate _ ih => exact setTrap_pres _ _ _ ih.1 ih.2
  | undo _ ih => exact undo_pres _ _ ih.1 ih.2
  | redo _ ih => exact redo_pres _ _ ih.1 ih.2
  | queue emit _ ih => exact ih
  | unqueue _ heq ih => exact unqueue_pres _ _ _ heq ih.1 ih.2

/-- The concrete operation chain of the C8 witness: construct over `{a: 1}`,
write `a := 2`, undo, undo again (no-op at 0), redo. -/
def c8Chain : StateObject (Tree × Tree) :=
  ((((StateObject.make (Tree × Tree) (Tree.obj (.cons "a" (.numv 1) .nil))).setTrap
      pairProvider (fun t => t.rawSetKey "a" (.numv 2))).undo
      pairProvider).undo pairProvider).redo pairProvider

/-- C8 witness: the invariant at the end of the concrete chain. -/
theorem c8_witness :
    0 ≤ c8Chain.changePosition ∧
    c8Chain.changePosition ≤ ((c8Chain.changes.length : Int)) :=
  c8_cursor_invariant pairProvider c8Chain
    (Reachable.redo (Reachable.undo (Reachable.undo
      (Reachable.write (fun t => t.rawSetKey "a" (.numv 2))
        (Reachable.make (Tree.obj (.cons "a" (.numv 1) .nil)))))))

/- ## C5: N writes followed by N undos -/

/-- A sequence of proxied field writes, applied through the set trap in
order. -/
def writeSeq {C : Type} (P : DiffProvider C) : StateObject C → List (Tree → Tree) → StateObject C
  | s, [] => s
  | s, mutate :: rest => writeSeq P (s.setTrap P mutate) rest

/-- `n` successive calls to `undo()`. -/
def undoN {C : Type} (P : DiffProvider C) : StateObject C → Nat → StateObject C
  | s, 0 => s
  | s, n + 1 => undoN P (s.undo P) n

/-- The records `cs` (most recently committed first) revert the tree `t`
step by step down to `g`: each backward application succeeds and each
intermediate tree is a container (so the state setter's clone and proxy
fallback store it unchanged). -/
def revertsTo {C : Type} (P : DiffProvider C) : Tree → List C → Tree → Prop
  | t, [], g => t = g
  | t, c :: cs, g =>
      ∃ u, P.revertChanges t c = some u ∧ u.isObjectLike = true ∧ revertsTo P u cs g

/-- `undo()` at a non-positive cursor is the identity. -/
theorem undo_at_nonpos {C : Type} (P : DiffProvider C) (s : StateObject C)
    (h : s.changePosition ≤ 0) : s.undo P = s := by
  unfold StateObject.undo
  rw [if_pos (Or.inl h)]

/-- A revert chain extended by one more record at its far end. -/
theorem revertsTo_snoc {C : Type} (P : DiffProvider C) :
    ∀ (L : List C) (t u g : Tree) (c : C),
    revertsTo P t L u → P.revertChanges u c = some g → g.isObjectLike = true →
    revertsTo P t (L ++ [c]) g := by
  intro L
  induction L with
  | nil =>
    intro t u g c h1 h2 h3
    have h1' : t = u := h1
    subst h1'
    exact ⟨g, h2, h3, rfl⟩
  | cons d L ih =>
    intro t u g c h1 h2 h3
    obtain ⟨v, hv1, hv2, hv3⟩ := h1
    exact ⟨v, hv1, hv2, ih v u g c hv3 h2 h3⟩

/-- Draining the history: at a cursor `p ≤ m` with a full revert chain from
the current tree down to `g`, `m` undos land on `g` at cursor 0. -/
theorem undoN_drain {C : Type} (P : DiffProvider C) :
    ∀ (m : Nat) (x : StateObject C) (g : Tree),
    0 ≤ x.changePosition → x.changePosition ≤ (x.changes.length : Int) →
    x.changePosition ≤ (m : Int) →
    revertsTo P x._state ((x.changes.take x.changePosition.toNat).reverse) g →
    (undoN P x m)._state = g ∧ (undoN P x m).changePosition = 0 := by
  intro m
  induction m with
  | zero =>
    intro x g h0 hle hm hchain
    have hp : x.changePosition = 0 := by omega
    rw [show x.changePosition.toNat = 0 by omega] at hchain
    simp only [List.take_zero, List.reverse_nil] at hchain
    exact ⟨hchain, hp⟩
  | succ m ih =>
    intro x g h0 hle hm hchain
    by_cases hp : x.changePosition ≤ 0
    · have hx : undoN P x (m + 1) = undoN P x m := by
        show undoN P (x.undo P) m = undoN P x m
        rw [undo_at_nonpos P x hp]
      rw [hx]
      exact ih x g h0 hle (by omega) hchain
    · push_neg at hp
      have hidx : x.changePosition.toNat - 1 < x.changes.length := by omega
      have htake : x.changes.take x.changePosition.toNat =
          x.changes.take (x.changePosition.toNat - 1) ++
            [x.changes.get ⟨x.changePosition.toNat - 1, hidx⟩] := by
        conv_lhs => rw [show x.changePosition.toNat = (x.changePosition.toNat - 1) + 1 by omega]
        rw [List.take_succ, List.getElem?_eq_getElem hidx]
        rfl
      rw [htake, List.reverse_append] at hchain
      simp only [List.reverse_cons, List.reverse_nil, List.nil_append,
        List.singleton_append] at hchain
      obtain ⟨u, hu1, hu2, hu3⟩ := hchain
      have hjs : jsGetElem x.changes (x.changePosition - 1) =
          some (x.changes.get ⟨x.changePosition.toNat - 1, hidx⟩) := by
        unfold jsGetElem
        rw [if_neg (by omega), show (x.changePosition - 1).toNat =
          x.changePosition.toNat - 1 by omega, List.getElem?_eq_getElem hidx]
        rfl
      have hundo : x.undo P =
          { x with
            changePosition := x.changePosition - 1
            _state := setProxyTarget (cloneObject u)
            events := x.events ++
              [.undo (x.changes.get ⟨x.changePosition.toNat - 1, hidx⟩)] } := by
        unfold StateObject.undo
        rw [if_neg (by omega)]
        dsimp only
        rw [hjs]
        dsimp only
        rw [hu1]
      have hstep : undoN P x (m + 1) = undoN P (x.undo P) m := rfl
      rw [hstep, hundo]
      have := ih
        { x with
          changePosition := x.changePosition - 1
          _state := setProxyTarget (cloneObject u)
          events := x.events ++
            [.undo (x.changes.get ⟨x.changePosition.toNat - 1, hidx⟩)] }
        g (by dsimp only; omega) (by dsimp only; omega) (by dsimp only; omega) ?_
      · exact this
      · dsimp only
        rw [setProxyTarget_clone_fix u hu2,
          show (x.changePosition - 1).toNat = x.changePosition.toNat - 1 by omega]
        exact hu3

/-- Running a write sequence from a batch-free container with a container
tree: the batch stays off, the tree stays a container, the cursor only
moves up (by at most one per write), the records below the starting cursor
are untouched, and the records committed between the starting and final
cursors revert the final tree step by step back to the starting tree. -/
theorem writeSeq_spec {C : Type} (P : DiffProvider C)
    (hnone : ∀ b a, P.diff b a = none → b = a)
    (hinv : ∀ b a c, P.diff b a = some c → P.revertChanges a c = some b) :
    ∀ (muts : List (Tree → Tree)) (s : StateObject C),
    (∀ m ∈ muts, ∀ t, t.isObjectLike = true → (m t).isObjectLike = true) →
    s._state.isObjectLike = true → s._queuedState = none →
    0 ≤ s.changePosition → s.changePosition ≤ (s.changes.length : Int) →
    (writeSeq P s muts)._queuedState = none ∧
    (writeSeq P s muts)._state.isObjectLike = true ∧
    s.changePosition ≤ (writeSeq P s muts).changePosition ∧
    (writeSeq P s muts).changePosition ≤ ((writeSeq P s muts).changes.length : Int) ∧
    (writeSeq P s muts).changePosition ≤ s.changePosition + muts.length ∧
    (writeSeq P s muts).changes.take s.changePosition.toNat =
      s.changes.take s.changePosition.toNat ∧
    revertsTo P (writeSeq P s muts)._state
      (((writeSeq P s muts).changes.take (writeSeq P s muts).changePosition.toNat).drop
        s.changePosition.toNat).reverse
      s._state := by
  intro muts
  induction muts with
  | nil =>
    intro s hmuts hobj hq h0 hle
    simp only [writeSeq]
    refine ⟨hq, hobj, le_refl _, hle, by simp, by simp, ?_⟩
    rw [show (s.changes.take s.changePosition.toNat).drop s.changePosition.toNat = []
      from List.drop_eq_nil_of_le (by rw [List.length_take]; omega)]
    exact rfl
  | cons mutate rest ih =>
    intro s hmuts hobj hq h0 hle
    have hmut : ∀ t, t.isObjectLike = true → (mutate t).isObjectLike = true :=
      hmuts mutate (by simp)
    have hrest : ∀ m ∈ rest, ∀ t, t.isObjectLike = true → (m t).isObjectLike = true :=
      fun m hm => hmuts m (by simp [hm])
    have hclone : cloneObject s._state = s._state := cloneObject_objLike _ hobj
    have hws : writeSeq P s (mutate :: rest) = writeSeq P (s.setTrap P mutate) rest := rfl
    cases hd : P.diff s._state (mutate s._state) with
    | none =>
      have hstate : mutate s._state = s._state := (hnone _ _ hd).symm
      have hs1 : s.setTrap P mutate = s := by
        unfold StateObject.setTrap
        rw [if_neg (by simp [hq])]
        dsimp only
        rw [hclone, hd]
        dsimp only
        rw [hstate]
      rw [hws, hs1]
      obtain ⟨a, b, c, d, e, f, g⟩ := ih s hrest hobj hq h0 hle
      exact ⟨a, b, c, d, by simp only [List.length_cons]; push_cast; omega, f, g⟩
    | some c =>
      have hs1 : s.setTrap P mutate =
          { _state := mutate s._state
            changes := s.changes.take s.changePosition.toNat ++ [c]
            changePosition := s.changePosition + 1
            _queuedState := none
            _queueEmit := s._queueEmit
            events := s.events ++ [Event.change c] } := by
        unfold StateObject.setTrap
        rw [if_neg (by simp [hq])]
        dsimp only
        rw [hclone, hd]
        dsimp only
        rw [if_neg (by simp [hq])]
        unfold StateObject.add
        dsimp only
        rw [spliceAll_eq_take s.changes s.changePosition c h0 hle, hq]
      rw [hws, hs1]
      have hlen1 : (s.changes.take s.changePosition.toNat ++ [c]).length =
          s.changePosition.toNat + 1 := by
        rw [List.length_append, List.length_take]
        simp only [List.length_singleton]
        omega
      set s1 : StateObject C :=
        { _state := mutate s._state
          changes := s.changes.take s.changePosition.toNat ++ [c]
          changePosition := s.changePosition + 1
          _queuedState := none
          _queueEmit := s._queueEmit
          events := s.events ++ [Event.change c] } with hs1def
      obtain ⟨W1q, W1obj, W1ge, W1le, W1cnt, W1take, W1chain⟩ :=
        ih s1 hrest (hmut _ hobj) rfl (by rw [hs1def]; dsimp only; omega)
          (by rw [hs1def]; dsimp only; rw [hlen1]; omega)
      set W : StateObject C := writeSeq P s1 rest with hWdef
      have hs1pos : s1.changePosition = s.changePosition + 1 := by rw [hs1def]
      have hs1chg : s1.changes = s.changes.take s.changePosition.toNat ++ [c] := by
        rw [hs1def]
      have hs1st : s1._state = mutate s._state := by rw [hs1def]
      rw [hs1pos] at W1ge W1cnt
      rw [hs1pos, hs1chg] at W1take
      rw [hs1pos, hs1st] at W1chain
      have htn : (s.changePosition + 1).toNat = s.changePosition.toNat + 1 := by omega
      rw [htn] at W1take W1chain
      have hfull : (s.changes.take s.changePosition.toNat ++ [c]).take
          (s.changePosition.toNat + 1) = s.changes.take s.changePosition.toNat ++ [c] :=
        List.take_of_length_le (by rw [hlen1])
      rw [hfull] at W1take
      refine ⟨W1q, W1obj, by omega, W1le, ?_, ?_, ?_⟩
      · simp only [List.length_cons]
        push_cast
        omega
      · calc W.changes.take s.changePosition.toNat
            = (W.changes.take (s.changePosition.toNat + 1)).take
                s.changePosition.toNat := by
              rw [List.take_take]
              congr 1
              omega
          _ = (s.changes.take s.changePosition.toNat ++ [c]).take
                s.changePosition.toNat := by rw [W1take]
          _ = (s.changes.take s.changePosition.toNat).take s.changePosition.toNat := by
              rw [List.take_append_of_le_length (by rw [List.length_take]; omega)]
          _ = s.changes.take s.changePosition.toNat := by
              rw [List.take_take]
              simp
      · have hWpos0 : (0 : Int) ≤ W.changePosition := by omega
        have hWle0 : W.changePosition.toNat ≤ W.changes.length := by omega
        have hWgt : s.changePosition.toNat < W.changePosition.toNat := by omega
        have hq1 : (W.changes.take (s.changePosition.toNat + 1))[s.changePosition.toNat]? =
            some c := by
          rw [W1take, List.getElem?_eq_getElem (by rw [hlen1]; omega)]
          congr 1
          exact List.getElem_concat_length _ _ _ (by rw [List.length_take]; omega) _
        have hq2 : W.changes[s.changePosition.toNat]? = some c := by
          have ht := List.getElem?_take (l := W.changes) (n := s.changePosition.toNat + 1)
            (m := s.changePosition.toNat)
          rw [if_pos (by omega)] at ht
          rw [← ht]
          exact hq1
        have hq3 : (W.changes.take W.changePosition.toNat)[s.changePosition.toNat]? =
            some c := by
          rw [List.getElem?_take, if_pos hWgt]
          exact hq2
        obtain ⟨hb, hi⟩ := List.getElem?_eq_some.mp hq3
        have hdrop : (W.changes.take W.changePosition.toNat).drop s.changePosition.toNat =
            c :: (W.changes.take W.changePosition.toNat).drop
              (s.changePosition.toNat + 1) := by
          rw [List.drop_eq_getElem_cons hb, hi]
        rw [hdrop, List.reverse_cons]
        exact revertsTo_snoc P _ _ _ _ _ W1chain (hinv _ _ _ hd) hobj

/-- `Reflect.set` on the proxied storage keeps the root of the tree a
container. -/
theorem rawSetKey_objLike (t : Tree) (k : String) (v : Tree)
    (h : t.isObjectLike = true) : (t.rawSetKey k v).isObjectLike = true := by
  cases t <;> simp [Tree.rawSetKey, Tree.isObjectLike] at *

/-- The pair provider's backward application exactly inverts its diff. -/
theorem pairProvider_revert_inverts :
    ∀ b a c, pairProvider.diff b a = some c → pairProvider.revertChanges a c = some b := by
  intro b a c h
  have h' : (if b = a then (none : Option (Tree × Tree)) else some (b, a)) = some c := h
  show (if a = c.2 then some c.1 else none) = some b
  by_cases hba : b = a
  · rw [if_pos hba] at h'
    exact Option.noConfusion h'
  · rw [if_neg hba] at h'
    have hc : (b, a) = c := Option.some.inj h'
    subst hc
    simp

/-- A null diff from the pair provider means the two snapshots are equal. -/
theorem pairProvider_diff_none : ∀ b a, pairProvider.diff b a = none → b = a := by
  intro b a h
  have h' : (if b = a then (none : Option (Tree × Tree)) else some (b, a)) = none := h
  by_cases hba : b = a
  · exact hba
  · rw [if_neg hba] at h'
    exact Option.noConfusion h'

/-- C5: from a batch-free container at position 0 over a container tree,
every sequence of N proxied field writes (each raw write keeping the root
of the tree a container, as `Reflect.set` against the proxied storage does)
followed by N calls to `undo()` brings the tree back to structural equality
with the tree before the first write, with the position back at 0 — under
the hypothesis that the diff provider's backward application exactly
inverts its diff, together with the section 4.2 contract that a null diff
means the two snapshots do not observably differ. -/
theorem c5_n_writes_n_undos {C : Type} (P : DiffProvider C)
    (hinv : ∀ b a c, P.diff b a = some c → P.revertChanges a c = some b)
    (hnone : ∀ b a, P.diff b a = none → b = a)
    (s : StateObject C) (muts : List (Tree → Tree))
    (hmuts : ∀ m ∈ muts, ∀ t, t.isObjectLike = true → (m t).isObjectLike = true)
    (hobj : s._state.isObjectLike = true)
    (hq : s._queuedState = none)
    (hpos : s.changePosition = 0) :
    (undoN P (writeSeq P s muts) muts.length)._state = s._state ∧
    (undoN P (writeSeq P s muts) muts.length).changePosition = 0 := by
  obtain ⟨Wq, Wobj, Wge, Wle, Wcnt, Wtake, Wchain⟩ :=
    writeSeq_spec P hnone hinv muts s hmuts hobj hq (by omega) (by omega)
  rw [hpos] at Wge Wcnt Wchain
  simp only [Int.toNat_zero, List.drop_zero, zero_add] at Wchain Wcnt
  exact undoN_drain P muts.length (writeSeq P s muts) s._state (by omega) Wle
    (by omega) Wchain

/-- The C5 witness container: a fresh StateObject over `{a: 0}`. -/
def c5S : StateObject (Tree × Tree) :=
  StateObject.make (Tree × Tree) (Tree.obj (.cons "a" (.numv 0) .nil))

/-- The C5 witness write sequence: `a := 1` then `a := 2`. -/
def c5Muts : List (Tree → Tree) :=
  [fun t => t.rawSetKey "a" (.numv 1), fun t => t.rawSetKey "a" (.numv 2)]

/-- C5 witness: two writes then two undos on the concrete container restore
the starting tree and cursor. -/
theorem c5_witness :
    (undoN pairProvider (writeSeq pairProvider c5S c5Muts) c5Muts.length)._state =
      c5S._state ∧
    (undoN pairProvider (writeSeq pairProvider c5S c5Muts) c5Muts.length).changePosition =
      0 :=
  c5_n_writes_n_undos pairProvider pairProvider_revert_inverts pairProvider_diff_none
    c5S c5Muts
    (by
      intro m hm t ht
      simp only [c5Muts, List.mem_cons, List.mem_singleton, List.not_mem_nil,
        or_false] at hm
      rcases hm with h | h <;> subst h <;> exact rawSetKey_objLike t _ _ ht)
    (by decide) rfl rfl

end Unreson
